import Mathlib

/-!
Shallow embedding of the CoSi-PBFT consensus processor core.

The development models, faithfully to the Go source:
  * `src/ledger/byzcoin/roster.go` — the roster (collective authority) and
    its factory;
  * `src/consensus/cosipbft/requests.go` — the Prepare/Commit requests of
    the collective-signing phases;
  * `src/core/ordering/cosipbft/proc.go` — the message processor
    (`Invoke`, `Process`, `storeGenesis`, `readRoster`, `getCurrentRoster`).

Opaque collaborator types are modelled as follows: addresses and public
keys are natural numbers, digests and byte buffers are lists of naturals,
the Merkle state tree is an association list from keys to values, and the
external collaborators reached through interfaces (serialization codec,
tree staging and commit, genesis store, pbft state machine) are gathered
in an `Env` record of function fields and success flags, mirroring the
fallible signatures of the Go interfaces.  Blocking channel reception is
modelled by returning `Option`: `none` stands for a handler that is still
blocked and never reached its reply.
-/

/-- A digest or a binary buffer: a list of bytes modelled as naturals. -/
abbrev Bytes := List Nat

/-- An opaque cryptographic signature together with the outcome of its
binary marshalling (`MarshalBinary` in Go can fail). -/
structure Sig where
  bin : Bytes
  marshalOk : Bool
  deriving DecidableEq, Repr

/-- `crypto.Signature.MarshalBinary`: returns the binary encoding of the
signature, or an error. -/
def marshalBinary (s : Sig) : Except Unit Bytes :=
  if s.marshalOk then .ok s.bin else .error ()

/-- The roster of `src/ledger/byzcoin/roster.go`: a list of participant
addresses and the parallel list of their public keys. -/
structure Roster where
  addrs : List Nat
  pubkeys : List Nat
  deriving DecidableEq, Repr

/-- Well-formedness invariant of a roster: the two parallel lists have the
same length, entry `i` of each belonging to participant `i`. -/
abbrev Roster.wf (r : Roster) : Prop := r.addrs.length = r.pubkeys.length

/-- `roster.Len`: the number of participants. -/
def Roster.len (r : Roster) : Nat := r.addrs.length

/-- `roster.Take`: the subset of the roster selected by the filter's index
list; entry `i` of the new roster is entry `indices[i]` of the old one.
The Go code indexes `r.addrs[k]` directly (a panic if out of range); the
model totalises with a default that is never reached for valid indices. -/
def Roster.take (r : Roster) (indices : List Nat) : Roster :=
  { addrs := indices.map (fun k => r.addrs.getD k 0),
    pubkeys := indices.map (fun k => r.pubkeys.getD k 0) }

/-- Modelled from the spec: a change set for roster evolution, with
removals (by address) and additions of (address, public key) pairs; the
spec only says "apply change-set" must produce the successor roster
(`viewchange.ChangeSet` itself is not part of the sources). -/
structure ChangeSet where
  remove : List Nat
  add : List (Nat × Nat)
  deriving DecidableEq, Repr

/-- `roster.Apply` exactly as in the source: the body is
`// TODO: implement` followed by `return r`, so the change set is
ignored and the receiver is returned unchanged. -/
def Roster.apply (r : Roster) (_ : ChangeSet) : Roster := r

/-- Modelled from the spec: the successor roster obtained by applying a
change set — participants whose address is listed for removal are
dropped and the added (address, public key) pairs are appended. -/
def applyChangeSetSpec (r : Roster) (c : ChangeSet) : Roster :=
  let pairs := (r.addrs.zip r.pubkeys).filter (fun p => ¬ c.remove.contains p.1)
  let pairs2 := pairs ++ c.add
  { addrs := pairs2.map Prod.fst, pubkeys := pairs2.map Prod.snd }

/-- The loop of `roster.GetPublicKey`: scan the addresses from index `i`;
on the first address equal to the target return the public key at the
same index and that index, otherwise `(nil, -1)`. -/
def gpkLoop (pubkeys : List Nat) (target : Nat) : List Nat → Nat → Option Nat × Int
  | [], _ => (none, -1)
  | a :: rest, i =>
    if a = target then (pubkeys.get? i, (i : Int)) else gpkLoop pubkeys target rest (i + 1)

/-- `roster.GetPublicKey`: the public key of the address if it exists
(with its index in the roster), `(nil, -1)` otherwise. -/
def Roster.getPublicKey (r : Roster) (target : Nat) : Option Nat × Int :=
  gpkLoop r.pubkeys target r.addrs 0

/-- `rosterFactory.New`: allocates both arrays with the authority's
length and copies entries while both iterators have a next element
(for a well-formed authority this copies everything); uncopied slots
keep the zero value. -/
def rosterFactoryNew (auth : Roster) : Roster :=
  let n := auth.addrs.length
  let k := min auth.addrs.length auth.pubkeys.length
  { addrs := auth.addrs.take k ++ List.replicate (n - k) 0,
    pubkeys := auth.pubkeys.take k ++ List.replicate (n - k) 0 }

/-- The protobuf message `Roster`: marshalled addresses and packed public
keys, modelled as naturals. -/
structure ProtoRoster where
  addresses : List Nat
  publicKeys : List Nat
  deriving DecidableEq, Repr

/-- The decoding loop of `rosterFactory.FromProto`: decode every packed
public key, aborting on the first failure. -/
def decodePubkeys (decodePk : Nat → Except Unit Nat) : List Nat → Except Unit (List Nat)
  | [] => .ok []
  | p :: ps =>
    match decodePk p with
    | .error e => .error e
    | .ok k =>
      match decodePubkeys decodePk ps with
      | .error e => .error e
      | .ok ks => .ok (k :: ks)

/-- `rosterFactory.FromProto`: rejects a message whose address and public
key arrays have different lengths, otherwise decodes the addresses with
the address factory and the public keys with the public-key factory. -/
def rosterFactoryFromProto (decodeAddr : Nat → Nat) (decodePk : Nat → Except Unit Nat)
    (pb : ProtoRoster) : Except Unit Roster :=
  if pb.addresses.length ≠ pb.publicKeys.length then .error ()
  else
    match decodePubkeys decodePk pb.publicKeys with
    | .error e => .error e
    | .ok pubkeys => .ok { addrs := pb.addresses.map decodeAddr, pubkeys := pubkeys }

/-- `Prepare`/`Commit` requests of `src/consensus/cosipbft/requests.go`:
the commit request keeps the digest it refers to, the prepare signature,
and its precomputed hash. -/
structure CommitReq where
  dest : Bytes
  prepare : Sig
  hash : Bytes
  deriving DecidableEq, Repr

/-- `newCommitRequest`: marshals the prepare signature and stores the
buffer as the hash of the commit request; fails if marshalling fails. -/
def newCommitRequest (dest : Bytes) (prepare : Sig) : Except Unit CommitReq :=
  match marshalBinary prepare with
  | .error _ => .error ()
  | .ok buffer => .ok { dest := dest, prepare := prepare, hash := buffer }

/-- `Commit.GetHash`: the value that the collective authority signs in the
commit phase; by construction the marshalled prepare signature. -/
def CommitReq.getHash (c : CommitReq) : Bytes := c.hash

/-- A candidate block as seen by the processor; only the index is
inspected by `proc.go` (`link.GetBlock().GetIndex()`). -/
structure Block where
  index : Nat
  deriving DecidableEq, Repr

/-- The genesis payload carried by a `GenesisMessage`
(`msg.GetGenesis().GetRoster()` and `.GetRoot()`). -/
structure Genesis where
  roster : Roster
  root : Bytes
  deriving DecidableEq, Repr

/-- The serde messages dispatched by `Invoke` and `Process`; `other`
stands for any message of an unrecognised kind (the `default` arm of the
Go type switches). -/
inductive Message where
  | block (b : Block)
  | commit (id : Bytes) (sig : Sig)
  | genesis (g : Genesis)
  | done (id : Bytes) (sig : Sig)
  | view (id : Bytes) (leader : Nat)
  | other
  deriving DecidableEq, Repr

/-- A call made by the processor into the pbft state machine; the trace
of these calls records what the processor acted upon. -/
inductive PbftCall where
  | prepare (b : Block)
  | commit (id : Bytes) (sig : Sig)
  | finalize (id : Bytes) (sig : Sig)
  | accept (source : Nat) (id : Bytes) (leader : Nat)
  deriving DecidableEq, Repr

/-- The state tree: an association list from keys to values, looked up
front to back. -/
abbrev StateTree := List (Bytes × Bytes)

/-- `snap.Set(key, value)` applied to a staged snapshot of the tree. -/
def treeSet (t : StateTree) (k v : Bytes) : StateTree := (k, v) :: t

/-- `tree.Get(key)`: the last committed value at the key, if present. -/
def treeGet (t : StateTree) (k : Bytes) : Option Bytes :=
  (t.find? (fun p => p.1 = k)).map (fun p => p.2)

/-- `keyRoster`, the reserved state-tree key: 32 zero bytes
(`var keyRoster = [32]byte{}`). -/
def keyRoster : Bytes := List.replicate 32 0

/-- The mutable state owned by the processor: the committed tree cache,
the singleton genesis slot, the `started` barrier (`true` once closed)
with a count of `close` operations, the ordering events notified to the
watcher, and the trace of calls into the pbft state machine. -/
structure ProcState where
  tree : StateTree
  genesis : Option Genesis
  started : Bool
  startedCloses : Nat
  events : List Nat
  calls : List PbftCall
  deriving DecidableEq, Repr

/-- Append a pbft state-machine call to the trace. -/
def recordCall (c : PbftCall) (st : ProcState) : ProcState :=
  { st with calls := st.calls ++ [c] }

/-- The processor state right after `newProcessor`, over a given
committed tree: no genesis, `started` open, nothing notified. -/
def initState (t : StateTree) : ProcState :=
  { tree := t, genesis := none, started := false, startedCloses := 0,
    events := [], calls := [] }

/-- The external collaborators reached through interfaces, as injected
function fields: the roster codec (`roster.Serialize`,
`rosterFac.AuthorityOf`), the staged tree root (`stageTree.GetRoot`),
the success flags of the fallible steps (`Stage`, `types.NewGenesis`,
`stageTree.Commit`, `genesis.Set`), and the pbft state machine. -/
structure Env where
  serializeRoster : Roster → Except Unit Bytes
  decodeRoster : Bytes → Except Unit Roster
  rootOf : StateTree → Bytes
  stageOk : Bool
  newGenesisOk : Bool
  commitOk : Bool
  genesisSetOk : Bool
  pbftPrepare : Block → Except Unit Bytes
  pbftCommit : Bytes → Sig → Except Unit Unit
  pbftFinalize : Bytes → Sig → Except Unit Unit

/-- `processor.storeGenesis`, step for step: serialize the roster; stage
the committed tree with the roster written at `keyRoster`; compare the
expected root (`match != nil && *match != root` fails); create the
genesis; commit the staged tree; advance the tree cache (`h.tree.Set`);
set the genesis slot (fails when already set or when the store fails);
notify the watcher with `Event{Index: 0}`; close the `started` barrier. -/
def storeGenesis (env : Env) (st : ProcState) (roster : Roster) (mtch : Option Bytes) :
    Except Unit Unit × ProcState :=
  match env.serializeRoster roster with
  | .error _ => (.error (), st)
  | .ok value =>
    if env.stageOk then
      let stageTree := treeSet st.tree keyRoster value
      let root := env.rootOf stageTree
      if mtch.any (fun d => d ≠ root) then (.error (), st)
      else if env.newGenesisOk then
        if env.commitOk then
          let st1 := { st with tree := stageTree }
          if st1.genesis.isSome ∨ env.genesisSetOk = false then (.error (), st1)
          else
            let st2 := { st1 with genesis := some { roster := roster, root := root } }
            let st3 := { st2 with events := st2.events ++ [0] }
            (.ok (), { st3 with started := true, startedCloses := st3.startedCloses + 1 })
        else (.error (), st)
      else (.error (), st)
    else (.error (), st)

/-- `processor.readRoster`: read the value stored at `keyRoster` in the
given tree and decode it with the roster factory. -/
def readRoster (env : Env) (t : StateTree) : Except Unit Roster :=
  match treeGet t keyRoster with
  | none => .error ()
  | some data => env.decodeRoster data

/-- `processor.getCurrentRoster`: `readRoster` on the committed tree. -/
def getCurrentRoster (env : Env) (st : ProcState) : Except Unit Roster :=
  readRoster env st.tree

/-- The release condition of the catch-up wait in `Invoke`: when
`sync.GetLatest() > blocks.Len()` the handler consumes the links
delivered by `blocks.Watch` and the loop ends only once a link whose
block index is `≥ GetLatest` has arrived (that link triggers `cancel()`,
which closes the channel); with no such link the handler stays blocked. -/
def catchUpReleased (latest len : Nat) (delivered : List Nat) : Bool :=
  if latest ≤ len then true
  else delivered.any (fun i => latest ≤ i)

/-- `processor.Invoke`: dispatch of the collective-signing messages.
`latest` is `sync.GetLatest()`, `len` is `blocks.Len()`, and `delivered`
is the stream of block indices that `blocks.Watch` delivers while the
handler waits; `none` models a handler still blocked in the catch-up
loop.  A `BlockMessage` goes to `pbftsm.Prepare` after the optional
catch-up wait; a `CommitMessage` goes to `pbftsm.Commit` and replies
with the marshalled signature; anything else is unsupported. -/
def invoke (env : Env) (latest len : Nat) (delivered : List Nat) (msg : Message)
    (st : ProcState) : Option (Except Unit Bytes × ProcState) :=
  match msg with
  | .block b =>
    if catchUpReleased latest len delivered then
      let st1 := recordCall (.prepare b) st
      match env.pbftPrepare b with
      | .error _ => some (.error (), st1)
      | .ok digest => some (.ok digest, st1)
    else none
  | .commit id sig =>
    let st1 := recordCall (.commit id sig) st
    match env.pbftCommit id sig with
    | .error _ => some (.error (), st1)
    | .ok _ =>
      match marshalBinary sig with
      | .error _ => some (.error (), st1)
      | .ok buffer => some (.ok buffer, st1)
  | _ => some (.error (), st)

/-- `processor.Process`: dispatch of the RPC messages.  A
`GenesisMessage` is a no-op when the genesis slot is already filled and
otherwise runs `storeGenesis` against the message's roster and declared
root; a `DoneMessage` goes to `pbftsm.Finalize`; a `ViewMessage` builds
a `pbft.View` from the request address and goes to `pbftsm.Accept`;
anything else is unsupported. -/
def process (env : Env) (source : Nat) (msg : Message) (st : ProcState) :
    Except Unit Unit × ProcState :=
  match msg with
  | .genesis g =>
    if st.genesis.isSome then (.ok (), st)
    else storeGenesis env st g.roster (some g.root)
  | .done id sig =>
    let st1 := recordCall (.finalize id sig) st
    match env.pbftFinalize id sig with
    | .error _ => (.error (), st1)
    | .ok _ => (.ok (), st1)
  | .view id leader => (.ok (), recordCall (.accept source id leader) st)
  | _ => (.error (), st)

/-- Whether an `Except` result is a success. -/
def exOk {ε α : Type} : Except ε α → Bool
  | .ok _ => true
  | .error _ => false

/-- `N` successive deliveries of the same `GenesisMessage`: returns
whether every delivery succeeded, and the final state. -/
def processGenesisN (env : Env) (source : Nat) (g : Genesis) :
    Nat → ProcState → Bool × ProcState
  | 0, st => (true, st)
  | n + 1, st =>
    let r := process env source (.genesis g) st
    let rest := processGenesisN env source g n r.2
    (exOk r.1 && rest.1, rest.2)

/-- A concrete environment for evaluating the model: a total roster codec
(length-prefixed concatenation of the two lists), a tree root given by
the tree's length, every fallible step succeeding, and a pbft state
machine that accepts everything. -/
def envEx : Env :=
  { serializeRoster := fun r => .ok (r.addrs.length :: (r.addrs ++ r.pubkeys)),
    decodeRoster := fun v =>
      match v with
      | [] => .error ()
      | n :: rest => .ok { addrs := rest.take n, pubkeys := rest.drop n },
    rootOf := fun t => [t.length],
    stageOk := true, newGenesisOk := true, commitOk := true, genesisSetOk := true,
    pbftPrepare := fun b => .ok [b.index],
    pbftCommit := fun _ _ => .ok (),
    pbftFinalize := fun _ _ => .ok () }

/-- A variant of `envEx` whose genesis store fails on `Set` and whose
tree root is constant (so that any expected root of `[]` matches). -/
def envBad : Env :=
  { envEx with genesisSetOk := false, rootOf := fun _ => [] }

/-- A variant of `envEx` whose staged-tree commit fails. -/
def envNoCommit : Env :=
  { envEx with commitOk := false }

/-- A sample signature whose marshalling succeeds. -/
def sigEx : Sig := { bin := [7, 8], marshalOk := true }

/-- The commit request built from `sigEx` by `newCommitRequest`. -/
def commitReqEx : CommitReq := { dest := [1], prepare := sigEx, hash := [7, 8] }

/-- The processor state expected after a successful `storeGenesis` of the
roster `{[1], [2]}` on an empty tree under `envEx`. -/
def stEx6 : ProcState :=
  { tree := [(keyRoster, [1, 1, 2])],
    genesis := some { roster := { addrs := [1], pubkeys := [2] }, root := [1] },
    started := true, startedCloses := 1, events := [0], calls := [] }

/-- A sample genesis payload: roster `{[1], [2]}` with the declared root
`[1]`, the staged root of that roster written into an empty tree under
`envEx`. -/
def gEx : Genesis := { roster := { addrs := [1], pubkeys := [2] }, root := [1] }

/-- The `GetPublicKey` loop never finds an absent target. -/
lemma gpkLoop_not_mem (pubkeys : List Nat) (target : Nat) :
    ∀ (rest : List Nat) (i : Nat), target ∉ rest →
      gpkLoop pubkeys target rest i = (none, -1) := by
  intro rest
  induction rest with
  | nil => intro i _; rfl
  | cons a rest ih =>
    intro i hmem
    have ha : a ≠ target := fun h => hmem (h ▸ List.mem_cons_self a rest)
    have hm : target ∉ rest := fun h => hmem (List.mem_cons_of_mem a h)
    simp [gpkLoop, ha, ih _ hm]

/-- The `GetPublicKey` loop returns the public key and absolute index of
the first occurrence of a present target. -/
lemma gpkLoop_mem (pubkeys : List Nat) (target : Nat) :
    ∀ (rest : List Nat) (i : Nat), target ∈ rest →
      ∃ j, rest.get? j = some target ∧ (∀ j2, j2 < j → rest.get? j2 ≠ some target) ∧
        gpkLoop pubkeys target rest i = (pubkeys.get? (i + j), ((i + j : Nat) : Int)) := by
  intro rest
  induction rest with
  | nil => intro i h; exact absurd h (List.not_mem_nil target)
  | cons a rest ih =>
    intro i hmem
    by_cases ha : a = target
    · refine ⟨0, ?_, ?_, ?_⟩
      · simp [ha]
      · intro j2 h2; omega
      · simp [gpkLoop, ha]
    · have hm : target ∈ rest := by
        rcases List.mem_cons.mp hmem with h | h
        · exact absurd h.symm ha
        · exact h
      rcases ih (i + 1) hm with ⟨j, hj1, hj2, hj3⟩
      refine ⟨j + 1, ?_, ?_, ?_⟩
      · simpa using hj1
      · intro j2 h2
        cases j2 with
        | zero => simpa using ha
        | succ j3 => simpa using hj2 j3 (by omega)
      · have : i + (j + 1) = i + 1 + j := by omega
        simp [gpkLoop, ha, hj3, this]

/-- C7: the claim says `Apply` produces the successor roster for the
change set; the code (`// TODO: implement`) ignores the change set and
returns the receiver unchanged, diverging from the spec-modelled
successor on a change set that adds a participant. -/
theorem roster_apply_ignores_change_set :
    (∀ (r : Roster) (c : ChangeSet), r.apply c = r) ∧
    Roster.apply { addrs := [0], pubkeys := [10] } { remove := [], add := [(1, 11)] } ≠
      applyChangeSetSpec { addrs := [0], pubkeys := [10] } { remove := [], add := [(1, 11)] } := by
  exact ⟨fun r c => rfl, by decide⟩

/-- C8: a message of an unrecognised kind makes both `Invoke` and
`Process` return the unsupported-message error and leaves the processor
state exactly unchanged. -/
theorem unknown_message_unsupported (env : Env) (source latest len : Nat)
    (delivered : List Nat) (st : ProcState) :
    invoke env latest len delivered Message.other st = some (.error (), st) ∧
    process env source Message.other st = (.error (), st) :=
  ⟨rfl, rfl⟩

/-- C9: on a well-formed roster, `GetPublicKey` returns the public key
and index of the first entry whose address equals the target, and
`(nil, -1)` when no entry matches. -/
theorem getPublicKey_first_match (r : Roster) (a : Nat) (hwf : r.wf) :
    (a ∉ r.addrs → r.getPublicKey a = (none, -1)) ∧
    (a ∈ r.addrs → ∃ i pk, r.addrs.get? i = some a ∧
      (∀ j, j < i → r.addrs.get? j ≠ some a) ∧
      r.pubkeys.get? i = some pk ∧
      r.getPublicKey a = (some pk, (i : Int))) := by
  constructor
  · intro hnm
    exact gpkLoop_not_mem r.pubkeys a r.addrs 0 hnm
  · intro hmem
    rcases gpkLoop_mem r.pubkeys a r.addrs 0 hmem with ⟨j, hj1, hj2, hj3⟩
    have hlt : j < r.addrs.length := List.get?_eq_some.mp hj1 |>.1
    have hlt2 : j < r.pubkeys.length := by
      have := hwf
      unfold Roster.wf at this
      omega
    rcases List.get?_eq_some.mp (List.get?_eq_get hlt2) with _
    refine ⟨j, r.pubkeys.get ⟨j, hlt2⟩, hj1, hj2, List.get?_eq_get hlt2, ?_⟩
    have : r.getPublicKey a = (r.pubkeys.get? j, ((j : Nat) : Int)) := by
      unfold Roster.getPublicKey
      simpa using hj3
    rw [this, List.get?_eq_get hlt2]

/-- C9 witness: on the roster with addresses `[5, 6, 5]` and keys
`[10, 11, 12]`, the target `5` yields the first match `(10, 0)`. -/
theorem getPublicKey_first_match_witness :
    Roster.wf { addrs := [5, 6, 5], pubkeys := [10, 11, 12] } ∧
    ((5 ∉ [5, 6, 5] → Roster.getPublicKey { addrs := [5, 6, 5], pubkeys := [10, 11, 12] } 5 = (none, -1)) ∧
     (5 ∈ [5, 6, 5] → ∃ i pk,
        [5, 6, 5].get? i = some 5 ∧
        (∀ j, j < i → [5, 6, 5].get? j ≠ some 5) ∧
        [10, 11, 12].get? i = some pk ∧
        Roster.getPublicKey { addrs := [5, 6, 5], pubkeys := [10, 11, 12] } 5 = (some pk, (i : Int)))) :=
  ⟨by decide, getPublicKey_first_match { addrs := [5, 6, 5], pubkeys := [10, 11, 12] } 5 (by decide)⟩

/-- The public-key decoding loop preserves the length of its input. -/
lemma decodePubkeys_length (decodePk : Nat → Except Unit Nat) :
    ∀ (l l2 : List Nat), decodePubkeys decodePk l = .ok l2 → l2.length = l.length := by
  intro l
  induction l with
  | nil => intro l2 h; cases h; rfl
  | cons p ps ih =>
    intro l2 h
    unfold decodePubkeys at h
    cases hp : decodePk p with
    | error e => rw [hp] at h; cases h
    | ok k =>
      rw [hp] at h
      cases hr : decodePubkeys decodePk ps with
      | error e => rw [hr] at h; cases h
      | ok ks =>
        rw [hr] at h
        cases h
        simp [ih ks hr]

/-- In-range `getD` with default agrees with `get?`. -/
lemma getD_eq_get?_of_lt (l : List Nat) (k : Nat) (h : k < l.length) :
    some (l.getD k 0) = l.get? k := by
  rw [List.getD_eq_getElem?_getD, List.get?_eq_get h, List.getElem?_eq_getElem h]
  rfl

/-- C10: every roster-producing operation keeps the address and
public-key lists the same length with entry `i` of each drawn from the
same participant: `Take` (selecting entry `indices[i]` of both lists),
`Apply`, and the factory's `New` preserve the invariant, and `FromProto`
rejects inputs whose two arrays differ in length and only ever returns
well-formed rosters. -/
theorem roster_parallel_lists_invariant (r : Roster) (indices : List Nat)
    (c : ChangeSet) (auth : Roster) (decodeAddr : Nat → Nat)
    (decodePk : Nat → Except Unit Nat) (pb : ProtoRoster) (hwf : r.wf) :
    (r.take indices).wf ∧
    (∀ i k, indices.get? i = some k → k < r.addrs.length →
      (r.take indices).addrs.get? i = r.addrs.get? k ∧
      (r.take indices).pubkeys.get? i = r.pubkeys.get? k) ∧
    (r.apply c).wf ∧
    (rosterFactoryNew auth).wf ∧
    (pb.addresses.length ≠ pb.publicKeys.length →
      rosterFactoryFromProto decodeAddr decodePk pb = .error ()) ∧
    (∀ r2, rosterFactoryFromProto decodeAddr decodePk pb = .ok r2 → r2.wf) := by
  refine ⟨?_, ?_, ?_, ?_, ?_, ?_⟩
  · simp [Roster.take, Roster.wf]
  · intro i k hik hk
    have hk2 : k < r.pubkeys.length := by
      unfold Roster.wf at hwf; omega
    rw [List.get?_eq_getElem?] at hik
    constructor
    · simp only [Roster.take, List.get?_eq_getElem?, List.getElem?_map, hik,
        Option.map_some']
      rw [← List.get?_eq_getElem?]
      exact getD_eq_get?_of_lt r.addrs k hk
    · simp only [Roster.take, List.get?_eq_getElem?, List.getElem?_map, hik,
        Option.map_some']
      rw [← List.get?_eq_getElem?]
      exact getD_eq_get?_of_lt r.pubkeys k hk2
  · exact hwf
  · simp [rosterFactoryNew, Roster.wf]
  · intro hne
    simp [rosterFactoryFromProto, hne]
  · intro r2 h
    unfold rosterFactoryFromProto at h
    by_cases hne : pb.addresses.length ≠ pb.publicKeys.length
    · simp [hne] at h
    · simp [hne] at h
      cases hd : decodePubkeys decodePk pb.publicKeys with
      | error e => rw [hd] at h; cases h
      | ok pubkeys =>
        rw [hd] at h
        cases h
        have hl := decodePubkeys_length decodePk pb.publicKeys pubkeys hd
        simp only [Roster.wf, List.length_map]
        omega

/-- C10 witness: the invariant theorem applied to the roster
`{[5, 6], [10, 11]}` with filter `[1, 0]`, an unbalanced authority and a
protobuf message with arrays of different lengths. -/
theorem roster_parallel_lists_invariant_witness :
    Roster.wf { addrs := [5, 6], pubkeys := [10, 11] } ∧
    ((Roster.take { addrs := [5, 6], pubkeys := [10, 11] } [1, 0]).wf ∧
     (∀ i k, [1, 0].get? i = some k → k < [5, 6].length →
       (Roster.take { addrs := [5, 6], pubkeys := [10, 11] } [1, 0]).addrs.get? i =
         [5, 6].get? k ∧
       (Roster.take { addrs := [5, 6], pubkeys := [10, 11] } [1, 0]).pubkeys.get? i =
         [10, 11].get? k) ∧
     (Roster.apply { addrs := [5, 6], pubkeys := [10, 11] }
        { remove := [5], add := [] }).wf ∧
     (rosterFactoryNew { addrs := [1, 2, 3], pubkeys := [4, 5] }).wf ∧
     (([1] : List Nat).length ≠ ([2, 3] : List Nat).length →
       rosterFactoryFromProto id (fun n => .ok n)
         { addresses := [1], publicKeys := [2, 3] } = .error ()) ∧
     (∀ r2, rosterFactoryFromProto id (fun n => .ok n)
         { addresses := [1], publicKeys := [2, 3] } = .ok r2 → r2.wf)) :=
  ⟨by decide,
   roster_parallel_lists_invariant { addrs := [5, 6], pubkeys := [10, 11] } [1, 0]
     { remove := [5], add := [] } { addrs := [1, 2, 3], pubkeys := [4, 5] } id
     (fun n => .ok n) { addresses := [1], publicKeys := [2, 3] } (by decide)⟩

/-- C5: the value collectively signed in the commit phase is the binary
encoding of the prepare signature: a commit request built by
`newCommitRequest` has `GetHash` equal to `MarshalBinary(prepareSig)`,
and on a successful `pbft.Commit` the `Invoke` handler replies to a
`CommitMessage` with exactly that marshalled signature. -/
theorem commit_reply_is_marshalled_prepare_sig (dest : Bytes) (p : Sig)
    (c : CommitReq) (env : Env) (latest len : Nat) (delivered : List Nat)
    (id : Bytes) (st : ProcState)
    (hreq : newCommitRequest dest p = .ok c)
    (hok : env.pbftCommit id p = .ok ()) :
    marshalBinary p = .ok c.getHash ∧
    invoke env latest len delivered (.commit id p) st =
      some (.ok c.getHash, recordCall (.commit id p) st) := by
  unfold newCommitRequest at hreq
  cases hm : marshalBinary p with
  | error e => rw [hm] at hreq; cases hreq
  | ok buffer =>
    rw [hm] at hreq
    cases hreq
    exact ⟨rfl, by simp [invoke, hok, hm, CommitReq.getHash]⟩

/-- C5 witness: the commit request for `sigEx` carries hash `[7, 8]`,
and `Invoke` on the corresponding `CommitMessage` under `envEx` replies
with it. -/
theorem commit_reply_is_marshalled_prepare_sig_witness :
    newCommitRequest [1] sigEx = .ok commitReqEx ∧
    envEx.pbftCommit [2] sigEx = .ok () ∧
    (marshalBinary sigEx = .ok commitReqEx.getHash ∧
     invoke envEx 0 0 [] (.commit [2] sigEx) (initState []) =
       some (.ok commitReqEx.getHash, recordCall (.commit [2] sigEx) (initState []))) :=
  ⟨rfl, rfl,
   commit_reply_is_marshalled_prepare_sig [1] sigEx commitReqEx envEx 0 0 [] [2]
     (initState []) rfl rfl⟩

/-- C1 counterexample: a replica at length 3 receiving a Prepare while
`sync.GetLatest() == 5` is NOT released by the links at indices 3 and 4
alone — after those two links the handler is still blocked in the
catch-up loop and `pbft.Prepare` has not been evaluated, contrary to the
claim that it waits only for indices 3 and 4. -/
theorem catchUp_not_released_by_links_3_4 :
    catchUpReleased 5 3 [3, 4] = false ∧
    invoke envEx 5 3 [3, 4] (.block { index := 5 }) (initState []) = none :=
  ⟨rfl, rfl⟩

/-- C1 amended: when `sync.GetLatest() > blocks.Len()`, the `Invoke`
handler for a `BlockMessage` completes its catch-up wait (and only then
calls `pbft.Prepare`) exactly when some link delivered by `blocks.Watch`
carries a block index `≥ GetLatest`; links with smaller indices alone
never release it. -/
theorem catchUp_wait_requires_latest (env : Env) (latest len : Nat)
    (delivered : List Nat) (b : Block) (st : ProcState) (h : len < latest) :
    ((invoke env latest len delivered (.block b) st).isSome = true ↔
      ∃ i ∈ delivered, latest ≤ i) ∧
    (∀ res st2, invoke env latest len delivered (.block b) st = some (res, st2) →
      st2.calls = st.calls ++ [PbftCall.prepare b]) := by
  have hnle : ¬ latest ≤ len := Nat.not_le.mpr h
  constructor
  · cases hrel : catchUpReleased latest len delivered with
    | false =>
      have : invoke env latest len delivered (.block b) st = none := by
        simp [invoke, hrel]
      rw [this]
      unfold catchUpReleased at hrel
      simp [hnle] at hrel
      simp only [Option.isSome_none]
      constructor
      · intro hh; exact absurd hh (by decide)
      · rintro ⟨i, hi, hle⟩
        exact absurd hle (Nat.not_le.mpr (hrel i hi))
    | true =>
      unfold catchUpReleased at hrel
      simp [hnle, List.any_eq_true] at hrel
      rcases hrel with ⟨i, hi, hle⟩
      cases hp : env.pbftPrepare b with
      | error e => simp [invoke, catchUpReleased, hnle, hp, List.any_eq_true]
      | ok d => simp [invoke, catchUpReleased, hnle, hp, List.any_eq_true]
  · intro res st2 heq
    cases hrel : catchUpReleased latest len delivered with
    | false => simp [invoke, hrel] at heq
    | true =>
      cases hp : env.pbftPrepare b with
      | error e =>
        simp [invoke, hrel, hp] at heq
        rw [← heq.2]
        simp [recordCall]
      | ok d =>
        simp [invoke, hrel, hp] at heq
        rw [← heq.2]
        simp [recordCall]

/-- C1 witness: with length 3, `GetLatest() == 5` and delivered links
3, 4, 5, the wait completes and `pbft.Prepare` is the recorded call. -/
theorem catchUp_wait_requires_latest_witness :
    3 < 5 ∧
    (((invoke envEx 5 3 [3, 4, 5] (.block { index := 5 }) (initState [])).isSome = true ↔
       ∃ i ∈ [3, 4, 5], 5 ≤ i) ∧
     (∀ res st2,
        invoke envEx 5 3 [3, 4, 5] (.block { index := 5 }) (initState []) = some (res, st2) →
        st2.calls = (initState []).calls ++ [PbftCall.prepare { index := 5 }])) :=
  ⟨by decide,
   catchUp_wait_requires_latest envEx 5 3 [3, 4, 5] { index := 5 } (initState [])
     (by decide)⟩

/-- C3 counterexample: in the fresh processor state — no genesis set,
`started` barrier open — a `ViewMessage` is not refused: `Process`
returns success and the view is handed to `pbftsm.Accept`. -/
theorem pre_genesis_view_message_acted_upon :
    (initState []).genesis = none ∧
    (initState []).started = false ∧
    process envEx 4 (.view [9] 2) (initState []) =
      (.ok (), { initState [] with calls := [PbftCall.accept 4 [9] 2] }) :=
  ⟨rfl, rfl, rfl⟩

/-- C3 amended: `Invoke` and `Process` do not gate consensus messages on
the genesis bootstrap: in any state with the genesis slot empty and the
`started` barrier still open, a `ViewMessage` is accepted, a
`DoneMessage` reaches `pbftsm.Finalize`, a `CommitMessage` reaches
`pbftsm.Commit`, and a `BlockMessage` (with no catch-up pending) reaches
`pbftsm.Prepare`; only the outer service's start operation waits on the
`started` barrier. -/
theorem pre_genesis_messages_dispatched (env : Env) (source latest len : Nat)
    (delivered : List Nat) (id : Bytes) (sig : Sig) (leader : Nat) (b : Block)
    (st : ProcState) (_hg : st.genesis = none) (_hs : st.started = false) :
    process env source (.view id leader) st =
      (.ok (), recordCall (.accept source id leader) st) ∧
    (process env source (.done id sig) st).2 = recordCall (.finalize id sig) st ∧
    (invoke env latest len delivered (.commit id sig) st).map (fun r => r.2.calls) =
      some (st.calls ++ [PbftCall.commit id sig]) ∧
    (latest ≤ len →
      (invoke env latest len delivered (.block b) st).map (fun r => r.2.calls) =
        some (st.calls ++ [PbftCall.prepare b])) := by
  refine ⟨rfl, ?_, ?_, ?_⟩
  · cases hf : env.pbftFinalize id sig with
    | error e => simp [process, hf]
    | ok u => simp [process, hf]
  · cases hc : env.pbftCommit id sig with
    | error e => simp [invoke, hc, recordCall]
    | ok u =>
      cases hm : marshalBinary sig with
      | error e => simp [invoke, hc, hm, recordCall]
      | ok buffer => simp [invoke, hc, hm, recordCall]
  · intro hle
    have hrel : catchUpReleased latest len delivered = true := by
      simp [catchUpReleased, hle]
    cases hp : env.pbftPrepare b with
    | error e => simp [invoke, hrel, hp, recordCall]
    | ok d => simp [invoke, hrel, hp, recordCall]

/-- C3 witness: the dispatch theorem applied to the fresh state. -/
theorem pre_genesis_messages_dispatched_witness :
    (initState []).genesis = none ∧
    (initState []).started = false ∧
    (process envEx 4 (.view [9] 2) (initState []) =
       (.ok (), recordCall (.accept 4 [9] 2) (initState [])) ∧
     (process envEx 4 (.done [9] sigEx) (initState [])).2 =
       recordCall (.finalize [9] sigEx) (initState []) ∧
     (invoke envEx 0 0 [] (.commit [9] sigEx) (initState [])).map (fun r => r.2.calls) =
       some ((initState []).calls ++ [PbftCall.commit [9] sigEx]) ∧
     (0 ≤ 0 →
       (invoke envEx 0 0 [] (.block { index := 0 }) (initState [])).map (fun r => r.2.calls) =
         some ((initState []).calls ++ [PbftCall.prepare { index := 0 }]))) :=
  ⟨rfl, rfl,
   pre_genesis_messages_dispatched envEx 4 0 0 [] [9] sigEx 2 { index := 0 }
     (initState []) rfl rfl⟩

/-- C4 counterexample: when every step up to the tree commit succeeds
and the expected root matches but `genesis.Set` fails, `storeGenesis`
returns an error while the committed tree has already been advanced to
the staged tree — partial state IS observable, contrary to the claim
that any later-step failure leaves the committed tree unchanged. -/
theorem storeGenesis_set_failure_partial_state :
    (storeGenesis envBad (initState []) { addrs := [1], pubkeys := [2] } (some [])).1 =
      .error () ∧
    (storeGenesis envBad (initState []) { addrs := [1], pubkeys := [2] } (some [])).2.tree ≠
      (initState []).tree :=
  ⟨rfl, by decide⟩

/-- C4 amended: if the expected root differs from the root of the staged
tree — or if any other step up to and including the tree commit fails:
roster serialization, tree staging, genesis creation, or the staged
tree's commit — `storeGenesis` returns an error and the processor state
is exactly unchanged (committed tree, genesis slot, `started` barrier,
events); only a `genesis.Set` failure after the commit leaves the
advanced tree in place. -/
theorem storeGenesis_pre_commit_failure_unchanged (env : Env) (st : ProcState)
    (roster : Roster) (mtch : Option Bytes)
    (h : (∃ e, env.serializeRoster roster = .error e) ∨
         env.stageOk = false ∨
         (∃ v d, env.serializeRoster roster = .ok v ∧ mtch = some d ∧
           d ≠ env.rootOf (treeSet st.tree keyRoster v)) ∨
         env.newGenesisOk = false ∨
         env.commitOk = false) :
    storeGenesis env st roster mtch = (.error (), st) := by
  rcases h with ⟨e, he⟩ | hstage | ⟨v, d, hv, hm, hne⟩ | hng | hcm
  · simp [storeGenesis, he]
  · cases hser : env.serializeRoster roster with
    | error e => simp [storeGenesis, hser]
    | ok v => simp [storeGenesis, hser, hstage]
  · subst hm
    cases hstage : env.stageOk with
    | false => simp [storeGenesis, hv, hstage]
    | true => simp [storeGenesis, hv, hstage, hne]
  · cases hser : env.serializeRoster roster with
    | error e => simp [storeGenesis, hser]
    | ok v =>
      cases hstage : env.stageOk with
      | false => simp [storeGenesis, hser, hstage]
      | true =>
        by_cases hg : mtch.any
            (fun d => d ≠ env.rootOf (treeSet st.tree keyRoster v)) = true
        · simp only [ne_eq, decide_not] at hg
          simp [storeGenesis, hser, hstage, hg]
        · simp [storeGenesis, hser, hstage, hg, hng]
  · cases hser : env.serializeRoster roster with
    | error e => simp [storeGenesis, hser]
    | ok v =>
      cases hstage : env.stageOk with
      | false => simp [storeGenesis, hser, hstage]
      | true =>
        by_cases hg : mtch.any
            (fun d => d ≠ env.rootOf (treeSet st.tree keyRoster v)) = true
        · simp only [ne_eq, decide_not] at hg
          simp [storeGenesis, hser, hstage, hg]
        · cases hng : env.newGenesisOk with
          | false => simp [storeGenesis, hser, hstage, hg, hng]
          | true => simp [storeGenesis, hser, hstage, hg, hng, hcm]

/-- C4 witness: under `envEx` on the empty tree, an expected root of
`[99]` disagrees with the staged root `[1]` and the state is returned
untouched; and under `envNoCommit` (failing staged-tree commit) with the
matching root `[1]`, the state is likewise returned untouched. -/
theorem storeGenesis_pre_commit_failure_unchanged_witness :
    (∃ v d, envEx.serializeRoster { addrs := [1], pubkeys := [2] } = .ok v ∧
      (some [99] : Option Bytes) = some d ∧
      d ≠ envEx.rootOf (treeSet (initState []).tree keyRoster v)) ∧
    envNoCommit.commitOk = false ∧
    storeGenesis envEx (initState []) { addrs := [1], pubkeys := [2] } (some [99]) =
      (.error (), initState []) ∧
    storeGenesis envNoCommit (initState []) { addrs := [1], pubkeys := [2] } (some [1]) =
      (.error (), initState []) :=
  ⟨⟨[1, 1, 2], [99], rfl, rfl, by decide⟩, rfl,
   storeGenesis_pre_commit_failure_unchanged envEx (initState [])
     { addrs := [1], pubkeys := [2] } (some [99])
     (Or.inr (Or.inr (Or.inl ⟨[1, 1, 2], [99], rfl, rfl, by decide⟩))),
   storeGenesis_pre_commit_failure_unchanged envNoCommit (initState [])
     { addrs := [1], pubkeys := [2] } (some [1])
     (Or.inr (Or.inr (Or.inr (Or.inr rfl))))⟩

/-- Characterization of a successful `storeGenesis`: the roster was
serialized, the committed tree advanced to the staged tree, the genesis
slot filled with the staged root, one watcher event for index 0
notified, and the `started` barrier closed exactly once more. -/
lemma storeGenesis_ok_state (env : Env) (st : ProcState) (roster : Roster)
    (mtch : Option Bytes) (st2 : ProcState)
    (h : storeGenesis env st roster mtch = (.ok (), st2)) :
    ∃ v, env.serializeRoster roster = .ok v ∧
      st2 = { st with
        tree := treeSet st.tree keyRoster v,
        genesis := some { roster := roster,
                          root := env.rootOf (treeSet st.tree keyRoster v) },
        started := true,
        startedCloses := st.startedCloses + 1,
        events := st.events ++ [0] } := by
  unfold storeGenesis at h
  cases hser : env.serializeRoster roster with
  | error e => rw [hser] at h; cases h
  | ok v =>
    rw [hser] at h
    refine ⟨v, rfl, ?_⟩
    cases hstage : env.stageOk with
    | false => rw [hstage] at h; simp at h
    | true =>
      rw [hstage] at h
      simp only [if_true] at h
      split at h
      · cases h
      · split at h
        · split at h
          · split at h
            · cases h
            · cases h
              rfl
          · cases h
        · cases h

/-- A `GenesisMessage` delivered while the genesis slot is already
filled is a silent success that changes nothing. -/
lemma process_genesis_exists (env : Env) (source : Nat) (g : Genesis)
    (st : ProcState) (h : st.genesis.isSome = true) :
    process env source (.genesis g) st = (.ok (), st) := by
  simp [process, h]

/-- Once the genesis slot is filled, any number of further deliveries of
a `GenesisMessage` all succeed and leave the state untouched. -/
lemma processGenesisN_stable (env : Env) (source : Nat) (g : Genesis) :
    ∀ (n : Nat) (st : ProcState), st.genesis.isSome = true →
      processGenesisN env source g n st = (true, st) := by
  intro n
  induction n with
  | zero => intro st _; rfl
  | succ n ih =>
    intro st h
    unfold processGenesisN
    rw [process_genesis_exists env source g st h]
    simp [ih st h, exOk]

/-- C2: if the first delivery of a `GenesisMessage` to a fresh processor
succeeds, then delivering it `N ≥ 1` times succeeds every time and the
final state equals the state after the single first delivery, in which
the genesis is stored, the committed tree was advanced to the staged
tree holding the serialized roster, and the `started` barrier is closed
exactly once. -/
theorem genesis_redelivery_idempotent (env : Env) (source : Nat) (g : Genesis)
    (t : StateTree) (N : Nat)
    (h1 : exOk (process env source (.genesis g) (initState t)).1 = true)
    (hN : 1 ≤ N) :
    processGenesisN env source g N (initState t) =
      (true, (process env source (.genesis g) (initState t)).2) ∧
    (process env source (.genesis g) (initState t)).2.genesis.isSome = true ∧
    (process env source (.genesis g) (initState t)).2.started = true ∧
    (process env source (.genesis g) (initState t)).2.startedCloses = 1 ∧
    (∃ v, env.serializeRoster g.roster = .ok v ∧
      (process env source (.genesis g) (initState t)).2.tree = treeSet t keyRoster v) := by
  have hnone : (initState t).genesis.isSome = false := rfl
  have hp : process env source (.genesis g) (initState t) =
      storeGenesis env (initState t) g.roster (some g.root) := by
    simp [process, hnone]
  have hok : storeGenesis env (initState t) g.roster (some g.root) =
      (.ok (), (process env source (.genesis g) (initState t)).2) := by
    rw [← hp]
    have : (process env source (.genesis g) (initState t)).1 = .ok () := by
      cases hr : (process env source (.genesis g) (initState t)).1 with
      | error e => rw [hr] at h1; simp [exOk] at h1
      | ok u => cases u; rfl
    calc process env source (.genesis g) (initState t)
        = ((process env source (.genesis g) (initState t)).1,
           (process env source (.genesis g) (initState t)).2) := rfl
      _ = (.ok (), (process env source (.genesis g) (initState t)).2) := by rw [this]
  rcases storeGenesis_ok_state env (initState t) g.roster (some g.root) _ hok with
    ⟨v, hv, hst⟩
  have hsome : (process env source (.genesis g) (initState t)).2.genesis.isSome = true := by
    rw [hst]; rfl
  refine ⟨?_, hsome, by rw [hst], by rw [hst]; rfl, ⟨v, hv, by rw [hst]; rfl⟩⟩
  obtain ⟨n, rfl⟩ : ∃ n, N = n + 1 := ⟨N - 1, by omega⟩
  unfold processGenesisN
  rw [hp, hok]
  simp [processGenesisN_stable env source g n _ hsome, exOk, ← hp, hok.symm]

/-- C2 witness: under `envEx`, three deliveries of the genesis message
with roster `{[1], [2]}` and matching root `[1]` all succeed and
collapse to the state of the first delivery. -/
theorem genesis_redelivery_idempotent_witness :
    exOk (process envEx 9 (.genesis gEx) (initState [])).1 = true ∧
    1 ≤ 3 ∧
    (processGenesisN envEx 9 gEx 3 (initState []) =
      (true, (process envEx 9 (.genesis gEx) (initState [])).2) ∧
     (process envEx 9 (.genesis gEx) (initState [])).2.genesis.isSome = true ∧
     (process envEx 9 (.genesis gEx) (initState [])).2.started = true ∧
     (process envEx 9 (.genesis gEx) (initState [])).2.startedCloses = 1 ∧
     (∃ v, envEx.serializeRoster gEx.roster = .ok v ∧
       (process envEx 9 (.genesis gEx) (initState [])).2.tree = treeSet [] keyRoster v)) :=
  ⟨rfl, by decide,
   genesis_redelivery_idempotent envEx 9 gEx [] 3 rfl (by decide)⟩

/-- Reading back the key just written to a staged tree. -/
lemma treeGet_treeSet (t : StateTree) (k v : Bytes) :
    treeGet (treeSet t k v) k = some v := by
  simp [treeGet, treeSet, List.find?]

/-- C6: after a successful `storeGenesis`, the serialized roster sits at
the reserved all-zero 32-byte key of the committed tree, and
`getCurrentRoster` reads it back and decodes it to the stored roster
whenever the roster codec round-trips on it. -/
theorem roster_stored_at_zero_key_roundtrip (env : Env) (st st2 : ProcState)
    (r : Roster) (mtch : Option Bytes) (v : Bytes)
    (hok : storeGenesis env st r mtch = (.ok (), st2))
    (hser : env.serializeRoster r = .ok v)
    (hdec : env.decodeRoster v = .ok r) :
    keyRoster = List.replicate 32 0 ∧
    treeGet st2.tree keyRoster = some v ∧
    getCurrentRoster env st2 = .ok r := by
  rcases storeGenesis_ok_state env st r mtch st2 hok with ⟨v2, hv2, hst⟩
  have hvv : v2 = v := by
    rw [hser] at hv2
    cases hv2
    rfl
  subst hvv
  have htree : st2.tree = treeSet st.tree keyRoster v2 := by rw [hst]
  refine ⟨rfl, ?_, ?_⟩
  · rw [htree, treeGet_treeSet]
  · simp [getCurrentRoster, readRoster, htree, treeGet_treeSet, hdec]

/-- C6 witness: storing roster `{[1], [2]}` on the empty tree under
`envEx` puts `[1, 1, 2]` at the 32-zero-byte key and `getCurrentRoster`
decodes it back. -/
theorem roster_stored_at_zero_key_roundtrip_witness :
    storeGenesis envEx (initState []) { addrs := [1], pubkeys := [2] } (some [1]) =
      (.ok (), stEx6) ∧
    envEx.serializeRoster { addrs := [1], pubkeys := [2] } = .ok [1, 1, 2] ∧
    envEx.decodeRoster [1, 1, 2] = .ok { addrs := [1], pubkeys := [2] } ∧
    (keyRoster = List.replicate 32 0 ∧
     treeGet stEx6.tree keyRoster = some [1, 1, 2] ∧
     getCurrentRoster envEx stEx6 = .ok { addrs := [1], pubkeys := [2] }) :=
  ⟨rfl, rfl, rfl,
   roster_stored_at_zero_key_roundtrip envEx (initState []) stEx6
     { addrs := [1], pubkeys := [2] } (some [1]) [1, 1, 2] rfl rfl rfl⟩
